import Mathlib

/-!
Verification of the gradient remapping tool (`erosion/remap_gradient.py`).

The program builds a 256-entry lookup table from an "erosion" texture
(`build_red_to_green_map`), then resamples a gradient texture through a
per-column time warp with bilinear interpolation (`remap_gradient`,
`bilinear_sample`).

Pixel values and all intermediate arithmetic are modelled as exact
rationals; 8-bit images hold integer values in `[0, 255]`.  Fallible
steps (indexing a missing channel) are modelled with `Except`.
-/

/-- An image: height, width, channel count, and pixel values indexed as
(row, column, channel), mirroring a numpy array of shape `(h, w, c)`. -/
structure Image where
  h : Nat
  w : Nat
  c : Nat
  pix : Nat → Nat → Nat → ℚ

/-- `np.clip(x, lo, hi)`. -/
def np_clip (x lo hi : ℚ) : ℚ := min (max x lo) hi

/-- `np.mean` of a list of values. -/
def np_mean (l : List ℚ) : ℚ := l.sum / (l.length : ℚ)

/-- `np.linspace(a, b, n)` (with endpoint): `n` evenly spaced values from
`a` to `b` inclusive. -/
def np_linspace (a b : ℚ) (n : Nat) : List ℚ :=
  if n = 1 then [a]
  else (List.range n).map (fun (i : Nat) => a + (i : ℚ) * ((b - a) / ((n - 1 : Nat) : ℚ)))

/-- Value at `x` of the line through `(x0, y0)` and `(x1, y1)`. -/
def lerpSeg (x0 y0 x1 y1 x : ℚ) : ℚ := y0 + (y1 - y0) * ((x - x0) / (x1 - x0))

/-- Tail worker for `np_interp`: `p` is the last knot already passed
(so `p.1 < x` on every call from `np_interp`). -/
def interpGo (x : ℚ) (p : ℚ × ℚ) : List (ℚ × ℚ) → ℚ
  | [] => p.2
  | q :: rest => if x ≤ q.1 then lerpSeg p.1 p.2 q.1 q.2 x else interpGo x q rest

/-- `np.interp(x, xp, fp)` over the knot list `pts = zip xp fp`, `xp`
strictly increasing: flat extension outside the knot range, piecewise
linear between consecutive knots. -/
def np_interp (x : ℚ) : List (ℚ × ℚ) → ℚ
  | [] => 0
  | p :: rest => if x ≤ p.1 then p.2 else interpGo x p rest

/-- All pixels flattened row-major into (red, green) pairs
(`erosion[:, :, 0].flatten()` paired with `erosion[:, :, 1].flatten()`). -/
def Image.samples (img : Image) : List (ℚ × ℚ) :=
  (List.range img.h).flatMap
    (fun i => (List.range img.w).map (fun j => (img.pix i j 0, img.pix i j 1)))

/-- Green values of all samples whose red channel equals `r`
(`green_channel[red_channel == r]`). -/
def greensFor (img : Image) (r : Nat) : List ℚ :=
  (img.samples.filter (fun s => s.1 = (r : ℚ))).map Prod.snd

/-- One raw table entry: mean green for red `r` when samples exist,
`none` standing for the source's NaN marker. -/
def rawEntry (img : Image) (r : Nat) : Option ℚ :=
  if greensFor img r = [] then none else some (np_mean (greensFor img r))

/-- The knots `(index, value)` of the resolved entries, in index order
(`valid_indices = np.where(valid_mask)[0]` zipped with
`valid_values = red_to_green[valid_mask]`); `n` is the index of the list head. -/
def validPts : Nat → List (Option ℚ) → List (ℚ × ℚ)
  | _, [] => []
  | n, none :: t => validPts (n + 1) t
  | n, some v :: t => ((n : ℚ), v) :: validPts (n + 1) t

/-- The raw 256-entry table `red_to_green` right after the mean-collection
loop, entry `r` being `none` where the source stores NaN. -/
def rawTable (erosion : Image) : List (Option ℚ) :=
  (List.range 256).map (rawEntry erosion)

/-- `build_red_to_green_map`: the 256-entry lookup from red byte to
representative green value.  Accessing channel 1 of an image with fewer
than two channels fails (IndexError in the source; InvalidInput in the
spec's taxonomy). -/
def build_red_to_green_map (erosion : Image) : Except String (List ℚ) :=
  if erosion.c < 2 then Except.error "InvalidInput"
  else if (rawTable erosion).any Option.isSome && !((rawTable erosion).all Option.isSome) then
    Except.ok ((List.range 256).map
      (fun (i : Nat) => np_interp (i : ℚ) (validPts 0 (rawTable erosion))))
  else if !((rawTable erosion).any Option.isSome) then
    Except.ok (np_linspace 0 255 256)
  else
    Except.ok ((rawTable erosion).map (fun o => o.getD 0))

/-- Round half to even, the Python built-in `round`. -/
def roundHalfEven (x : ℚ) : ℤ :=
  if x - ⌊x⌋ < 1/2 then ⌊x⌋
  else if 1/2 < x - ⌊x⌋ then ⌊x⌋ + 1
  else if ⌊x⌋ % 2 = 0 then ⌊x⌋ else ⌊x⌋ + 1

/-- `attack = col / (grad_w - 1) if grad_w > 1 else 0.5`. -/
def colAttack (w col : Nat) : ℚ := if 1 < w then (col : ℚ) / ((w - 1 : Nat) : ℚ) else 1/2

/-- `red_value = np.clip(int(round(255 * (1 - attack))), 0, 255)`. -/
def colRed (w col : Nat) : Nat :=
  (min (max (roundHalfEven (255 * (1 - colAttack w col))) 0) 255).toNat

/-- `key_press = fade_in_duration * attack`. -/
def colKeyPress (fadeIn : ℚ) (w col : Nat) : ℚ := fadeIn * colAttack w col

/-- `release = red_to_green[red_value] / 255.0`. -/
def colRelease (tbl : List ℚ) (w col : Nat) : ℚ := tbl.getD (colRed w col) 0 / 255

/-- `key_release = fade_out_start + release * fade_out_duration` with
`fade_out_start = animation_duration - fade_out_duration`, before the guard. -/
def colKeyRelease0 (tbl : List ℚ) (fadeOut dur : ℚ) (w col : Nat) : ℚ :=
  (dur - fadeOut) + colRelease tbl w col * fadeOut

/-- `key_release` after the degenerate-window guard
(`if key_release <= key_press + 0.001: key_release = key_press + 0.001`). -/
def colKeyRelease (tbl : List ℚ) (fadeIn fadeOut dur : ℚ) (w col : Nat) : ℚ :=
  if colKeyRelease0 tbl fadeOut dur w col ≤ colKeyPress fadeIn w col + 1/1000
  then colKeyPress fadeIn w col + 1/1000
  else colKeyRelease0 tbl fadeOut dur w col

/-- Integer part of the clamped sampling coordinate:
`x0 = np.floor(np.clip(x, 0, dim - 1)).astype(int)`. -/
def idx0 (dim : Nat) (x : ℚ) : Nat := (⌊np_clip x 0 ((dim - 1 : Nat) : ℚ)⌋).toNat

/-- `x1 = np.minimum(x0 + 1, dim - 1)`. -/
def idx1 (dim : Nat) (x : ℚ) : Nat := min (idx0 dim x + 1) (dim - 1)

/-- Fractional sampling weight `fx = x - x0` (after clamping). -/
def fracPart (dim : Nat) (x : ℚ) : ℚ :=
  np_clip x 0 ((dim - 1 : Nat) : ℚ) - (idx0 dim x : ℚ)

/-- `bilinear_sample(img, x, y)` at channel `ch`: clamp the coordinates,
split into integer cell and fractional weights, and blend the four
neighbouring pixels. -/
def bilinear_sample (img : Image) (x y : ℚ) (ch : Nat) : ℚ :=
  img.pix (idx0 img.h y) (idx0 img.w x) ch * ((1 - fracPart img.w x) * (1 - fracPart img.h y)) +
  img.pix (idx0 img.h y) (idx1 img.w x) ch * (fracPart img.w x * (1 - fracPart img.h y)) +
  img.pix (idx1 img.h y) (idx0 img.w x) ch * ((1 - fracPart img.w x) * fracPart img.h y) +
  img.pix (idx1 img.h y) (idx1 img.w x) ch * (fracPart img.w x * fracPart img.h y)

/-- `normalized_times = np.linspace(0, 1, grad_h)`. -/
def normTimes (h : Nat) : List ℚ := np_linspace 0 1 h

/-- Source x coordinate of destination pixel (row, col):
`np.clip(global_time / animation_duration, 0, 1) * (grad_w - 1)` with
`global_time = key_press + normalized_time * (key_release - key_press)`. -/
def srcX (tbl : List ℚ) (fadeIn fadeOut dur : ℚ) (w h col row : Nat) : ℚ :=
  np_clip ((colKeyPress fadeIn w col +
      ((normTimes h).getD row 0) *
        (colKeyRelease tbl fadeIn fadeOut dur w col - colKeyPress fadeIn w col)) / dur)
    0 1 * ((w - 1 : Nat) : ℚ)

/-- Source y coordinate: `normalized_time * (grad_h - 1)`. -/
def srcY (h row : Nat) : ℚ := ((normTimes h).getD row 0) * ((h - 1 : Nat) : ℚ)

/-- The float64 result array of `remap_gradient` before the final
clip-and-cast line: every destination pixel is a bilinear sample of the
gradient at the warped source coordinates. -/
def remapPre (gradient : Image) (tbl : List ℚ) (fadeIn fadeOut dur : ℚ) : Image :=
  { h := gradient.h, w := gradient.w, c := gradient.c,
    pix := fun row col ch =>
      bilinear_sample gradient (srcX tbl fadeIn fadeOut dur gradient.w gradient.h col row)
        (srcY gradient.h row) ch }

/-- The final quantization `np.clip(v, 0, 255).astype(np.uint8)` of one
sample: truncation toward zero after clamping (floor, as the clamped
value is non-negative). -/
def quantize (v : ℚ) : Nat := (⌊np_clip v 0 255⌋).toNat

/-- `remap_gradient(gradient, erosion, fade_in, fade_out, duration)`:
build the lookup table, warp-resample every destination pixel, then
clamp to `[0, 255]` and cast to 8-bit. -/
def remap_gradient (gradient erosion : Image) (fadeIn fadeOut dur : ℚ) :
    Except String Image :=
  (build_red_to_green_map erosion).map (fun tbl =>
    { h := gradient.h, w := gradient.w, c := gradient.c,
      pix := fun row col ch =>
        ((quantize ((remapPre gradient tbl fadeIn fadeOut dur).pix row col ch) : Nat) : ℚ) })

lemma rangeMap_getD {α : Type} (f : Nat → α) (n i : Nat) (h : i < n) (d : α) :
    ((List.range n).map f).getD i d = f i := by
  rw [List.getD_eq_getElem?_getD]
  simp [List.getElem?_map, List.getElem?_range h]

lemma np_linspace_getD (a b : ℚ) (n i : Nat) (hn : 1 < n) (hi : i < n) :
    (np_linspace a b n).getD i 0 = a + (i : ℚ) * ((b - a) / ((n - 1 : Nat) : ℚ)) := by
  rw [np_linspace, if_neg (by omega)]
  exact rangeMap_getD _ n i hi 0

lemma np_linspace_one (a b : ℚ) : np_linspace a b 1 = [a] := by
  simp [np_linspace]

lemma samples_empty (img : Image) (h : img.h = 0 ∨ img.w = 0) :
    img.samples = [] := by
  rcases h with h | h <;> simp [Image.samples, h]

lemma np_linspace_identity (i : Nat) (hi : i < 256) :
    (np_linspace 0 255 256).getD i 0 = (i : ℚ) := by
  rw [np_linspace_getD 0 255 256 i (by norm_num) hi]
  norm_num

lemma greensFor_of_samples_empty (img : Image) (h : img.samples = []) (r : Nat) :
    greensFor img r = [] := by
  simp [greensFor, h]

lemma rawTable_length (erosion : Image) : (rawTable erosion).length = 256 := by
  simp [rawTable]

lemma rawTable_any_false (erosion : Image) (h : ∀ r, rawEntry erosion r = none) :
    (rawTable erosion).any Option.isSome = false := by
  rw [rawTable, List.any_eq_false]
  intro o ho
  rcases List.mem_map.mp ho with ⟨r, _, rfl⟩
  simp [h r]

lemma build_table_ok (erosion : Image) (h : 2 ≤ erosion.c) :
    ∃ t, build_red_to_green_map erosion = Except.ok t ∧ t.length = 256 := by
  have h2 : ¬ erosion.c < 2 := by omega
  simp only [build_red_to_green_map, if_neg h2]
  by_cases h1 :
      ((rawTable erosion).any Option.isSome && !((rawTable erosion).all Option.isSome)) = true
  · rw [if_pos h1]
    exact ⟨_, rfl, by simp⟩
  · rw [if_neg h1]
    by_cases hb : (!(rawTable erosion).any Option.isSome) = true
    · rw [if_pos hb]
      refine ⟨_, rfl, ?_⟩
      simp [np_linspace]
    · rw [if_neg hb]
      exact ⟨_, rfl, by simp [rawTable]⟩

/-- **C9.** `build_red_to_green_map` fails exactly on images with fewer than
two channels (the spec's InvalidInput precondition violation); with at
least two channels it succeeds (returning a full 256-entry table) for any
width and height. -/
theorem build_table_failure_mode (erosion : Image) :
    (erosion.c < 2 → build_red_to_green_map erosion = Except.error "InvalidInput") ∧
    (2 ≤ erosion.c →
      ∃ t, build_red_to_green_map erosion = Except.ok t ∧ t.length = 256) := by
  constructor
  · intro h
    simp only [build_red_to_green_map, if_pos h]
  · exact build_table_ok erosion

/-- An image with a single channel (malformed erosion input). -/
def oneChannelErosion : Image := ⟨1, 1, 1, fun _ _ _ => 0⟩

/-- A well-formed 1 x 1 two-channel erosion image. -/
def tinyErosion : Image := ⟨1, 1, 2, fun _ _ _ => 7⟩

theorem build_table_failure_mode_witness :
    build_red_to_green_map oneChannelErosion = Except.error "InvalidInput" ∧
    ∃ t, build_red_to_green_map tinyErosion = Except.ok t ∧ t.length = 256 :=
  ⟨(build_table_failure_mode oneChannelErosion).1 (by decide),
   (build_table_failure_mode tinyErosion).2 (by decide)⟩

/-- **C4.** On an erosion image with no pixels at all (zero height or zero
width, hence no sample for any red value), `build_red_to_green_map`
returns the identity ramp: entry `i` is exactly `i` for every `i < 256`. -/
theorem build_table_empty_is_identity (erosion : Image) (hc : 2 ≤ erosion.c)
    (hempty : erosion.h = 0 ∨ erosion.w = 0) :
    ∃ t, build_red_to_green_map erosion = Except.ok t ∧
      ∀ i < 256, t.getD i 0 = (i : ℚ) := by
  have hs := samples_empty erosion hempty
  have hnone : ∀ r, rawEntry erosion r = none := by
    intro r
    simp [rawEntry, greensFor_of_samples_empty erosion hs r]
  have hany := rawTable_any_false erosion hnone
  have h2 : ¬ erosion.c < 2 := by omega
  simp only [build_red_to_green_map, if_neg h2, hany, Bool.false_and, Bool.not_false,
    if_true, if_false]
  exact ⟨_, rfl, fun i hi => np_linspace_identity i hi⟩

/-- A 0 x 3 two-channel erosion image: no pixels, hence no samples. -/
def emptyErosion : Image := ⟨0, 3, 2, fun _ _ _ => 0⟩

theorem build_table_empty_is_identity_witness :
    ∃ t, build_red_to_green_map emptyErosion = Except.ok t ∧
      ∀ i < 256, t.getD i 0 = (i : ℚ) :=
  build_table_empty_is_identity emptyErosion (by decide) (Or.inl rfl)

lemma mem_samples (img : Image) (i j : Nat) (hi : i < img.h) (hj : j < img.w) :
    (img.pix i j 0, img.pix i j 1) ∈ img.samples := by
  simp only [Image.samples, List.mem_flatMap]
  exact ⟨i, List.mem_range.mpr hi, List.mem_map.mpr ⟨j, List.mem_range.mpr hj, rfl⟩⟩

lemma mem_greensFor (img : Image) (r : Nat) (i j : Nat) (hi : i < img.h)
    (hj : j < img.w) (hr : img.pix i j 0 = (r : ℚ)) :
    img.pix i j 1 ∈ greensFor img r := by
  simp only [greensFor, List.mem_map]
  refine ⟨(img.pix i j 0, img.pix i j 1), List.mem_filter.mpr ⟨mem_samples img i j hi hj, ?_⟩, rfl⟩
  simp [hr]

lemma rawEntry_of_ne_nil (img : Image) (r : Nat) (h : greensFor img r ≠ []) :
    rawEntry img r = some (np_mean (greensFor img r)) := by
  simp [rawEntry, h]

lemma rawTable_all_isSome (erosion : Image)
    (h : ∀ r < 256, greensFor erosion r ≠ []) :
    (rawTable erosion).all Option.isSome = true := by
  rw [rawTable, List.all_eq_true]
  intro o ho
  rcases List.mem_map.mp ho with ⟨r, hr, rfl⟩
  rw [rawEntry_of_ne_nil erosion r (h r (List.mem_range.mp hr))]
  rfl

lemma rawTable_any_isSome (erosion : Image)
    (h : greensFor erosion 0 ≠ []) :
    (rawTable erosion).any Option.isSome = true := by
  rw [rawTable, List.any_eq_true]
  refine ⟨rawEntry erosion 0, List.mem_map.mpr ⟨0, by simp, rfl⟩, ?_⟩
  rw [rawEntry_of_ne_nil erosion 0 h]
  rfl

lemma build_table_keep_branch (erosion : Image) (hc : 2 ≤ erosion.c)
    (hall : (rawTable erosion).all Option.isSome = true)
    (hany : (rawTable erosion).any Option.isSome = true) :
    build_red_to_green_map erosion =
      Except.ok ((rawTable erosion).map (fun o => o.getD 0)) := by
  have h2 : ¬ erosion.c < 2 := by omega
  simp only [build_red_to_green_map, if_neg h2, hall, hany, Bool.not_true, Bool.and_false,
    Bool.false_eq_true, if_false]

/-- **C1.** If the erosion image has at least two channels and, for every
red value `r` in `0..255`, at least one pixel whose red channel equals
`r`, then `build_red_to_green_map` returns exactly the per-red-value
arithmetic mean (as an exact rational, unrounded) of the green values of
the pixels with that red value, with no interpolation or gap filling
touching any entry. -/
theorem build_table_full_coverage (erosion : Image) (hc : 2 ≤ erosion.c)
    (hcover : ∀ r : Nat, r < 256 →
      ∃ i, ∃ j, i < erosion.h ∧ j < erosion.w ∧ erosion.pix i j 0 = (r : ℚ)) :
    ∃ t, build_red_to_green_map erosion = Except.ok t ∧
      ∀ r < 256, t.getD r 0 = np_mean (greensFor erosion r) := by
  have hne : ∀ r < 256, greensFor erosion r ≠ [] := by
    intro r hr
    rcases hcover r hr with ⟨i, j, hi, hj, hpix⟩
    exact List.ne_nil_of_mem (mem_greensFor erosion r i j hi hj hpix)
  rw [build_table_keep_branch erosion hc (rawTable_all_isSome erosion hne)
    (rawTable_any_isSome erosion (hne 0 (by norm_num)))]
  refine ⟨_, rfl, ?_⟩
  intro r hr
  rw [rawTable, List.map_map]
  rw [rangeMap_getD _ 256 r hr 0]
  simp [Function.comp, rawEntry_of_ne_nil erosion r (hne r hr)]

/-- A 1 x 256 erosion image whose pixel in column `j` has red `j` and
green `j`: every red value has exactly one sample. -/
def fullErosion : Image := ⟨1, 256, 2, fun _ j _ => (j : ℚ)⟩

theorem build_table_full_coverage_witness :
    ∃ t, build_red_to_green_map fullErosion = Except.ok t ∧
      ∀ r < 256, t.getD r 0 = np_mean (greensFor fullErosion r) :=
  build_table_full_coverage fullErosion (by decide)
    (fun r hr => ⟨0, r, Nat.one_pos, hr, rfl⟩)

lemma np_clip_nonneg (x hi : ℚ) (h0 : 0 ≤ hi) : 0 ≤ np_clip x 0 hi :=
  le_min (le_max_right x 0) h0

lemma np_clip_le (x hi : ℚ) : np_clip x 0 hi ≤ hi := min_le_right _ _

lemma idx0_cast (dim : Nat) (x : ℚ) :
    ((idx0 dim x : Nat) : ℚ) = ((⌊np_clip x 0 ((dim - 1 : Nat) : ℚ)⌋ : ℤ) : ℚ) := by
  have hfl : (0:ℤ) ≤ ⌊np_clip x 0 ((dim - 1 : Nat) : ℚ)⌋ :=
    Int.floor_nonneg.mpr (np_clip_nonneg x _ (Nat.cast_nonneg _))
  rw [idx0]
  exact_mod_cast congrArg (fun z : ℤ => (z : ℚ)) (Int.toNat_of_nonneg hfl)

lemma fracPart_nonneg (dim : Nat) (x : ℚ) : 0 ≤ fracPart dim x := by
  rw [fracPart, idx0_cast]
  exact sub_nonneg.mpr (Int.floor_le _)

lemma fracPart_lt_one (dim : Nat) (x : ℚ) : fracPart dim x < 1 := by
  rw [fracPart, idx0_cast]
  have := Int.lt_floor_add_one (np_clip x 0 ((dim - 1 : Nat) : ℚ))
  linarith

lemma idx0_lt (dim : Nat) (x : ℚ) (hd : 1 ≤ dim) : idx0 dim x < dim := by
  have hle : ⌊np_clip x 0 ((dim - 1 : Nat) : ℚ)⌋ ≤ ((dim - 1 : Nat) : ℤ) := by
    calc ⌊np_clip x 0 ((dim - 1 : Nat) : ℚ)⌋ ≤ ⌊((dim - 1 : Nat) : ℚ)⌋ :=
          Int.floor_le_floor (np_clip_le x _)
      _ = ((dim - 1 : Nat) : ℤ) := Int.floor_natCast _
  have : idx0 dim x ≤ dim - 1 := by
    rw [idx0]
    exact Int.toNat_le.mpr hle
  omega

lemma idx1_lt (dim : Nat) (x : ℚ) (hd : 1 ≤ dim) : idx1 dim x < dim := by
  have : idx1 dim x ≤ dim - 1 := min_le_right _ _
  omega

lemma convex4_bounds (va vb vc vd fx fy : ℚ)
    (hfx0 : 0 ≤ fx) (hfx1 : fx ≤ 1) (hfy0 : 0 ≤ fy) (hfy1 : fy ≤ 1)
    (ha : 0 ≤ va ∧ va ≤ 255) (hb : 0 ≤ vb ∧ vb ≤ 255)
    (hc : 0 ≤ vc ∧ vc ≤ 255) (hd : 0 ≤ vd ∧ vd ≤ 255) :
    0 ≤ va * ((1 - fx) * (1 - fy)) + vb * (fx * (1 - fy)) +
        vc * ((1 - fx) * fy) + vd * (fx * fy) ∧
    va * ((1 - fx) * (1 - fy)) + vb * (fx * (1 - fy)) +
        vc * ((1 - fx) * fy) + vd * (fx * fy) ≤ 255 := by
  have w00 : (0:ℚ) ≤ (1 - fx) * (1 - fy) := mul_nonneg (by linarith) (by linarith)
  have w10 : (0:ℚ) ≤ fx * (1 - fy) := mul_nonneg hfx0 (by linarith)
  have w01 : (0:ℚ) ≤ (1 - fx) * fy := mul_nonneg (by linarith) hfy0
  have w11 : (0:ℚ) ≤ fx * fy := mul_nonneg hfx0 hfy0
  constructor
  · have t1 := mul_nonneg ha.1 w00
    have t2 := mul_nonneg hb.1 w10
    have t3 := mul_nonneg hc.1 w01
    have t4 := mul_nonneg hd.1 w11
    linarith
  · have u1 : 0 ≤ (255 - va) * ((1 - fx) * (1 - fy)) := mul_nonneg (by linarith) w00
    have u2 : 0 ≤ (255 - vb) * (fx * (1 - fy)) := mul_nonneg (by linarith) w10
    have u3 : 0 ≤ (255 - vc) * ((1 - fx) * fy) := mul_nonneg (by linarith) w01
    have u4 : 0 ≤ (255 - vd) * (fx * fy) := mul_nonneg (by linarith) w11
    nlinarith [u1, u2, u3, u4]

lemma bilinear_sample_bounds (img : Image) (x y : ℚ) (ch : Nat)
    (hw : 1 ≤ img.w) (hh : 1 ≤ img.h)
    (hpix : ∀ i < img.h, ∀ j < img.w, 0 ≤ img.pix i j ch ∧ img.pix i j ch ≤ 255) :
    0 ≤ bilinear_sample img x y ch ∧ bilinear_sample img x y ch ≤ 255 := by
  rw [bilinear_sample]
  exact convex4_bounds _ _ _ _ _ _
    (fracPart_nonneg img.w x) (le_of_lt (fracPart_lt_one img.w x))
    (fracPart_nonneg img.h y) (le_of_lt (fracPart_lt_one img.h y))
    (hpix _ (idx0_lt img.h y hh) _ (idx0_lt img.w x hw))
    (hpix _ (idx0_lt img.h y hh) _ (idx1_lt img.w x hw))
    (hpix _ (idx1_lt img.h y hh) _ (idx0_lt img.w x hw))
    (hpix _ (idx1_lt img.h y hh) _ (idx1_lt img.w x hw))

/-- **C6.** Bilinear sampling contract: for any image with `W, H ≥ 1` and
any real coordinates (in range or not), the sample indices come from
clamping the coordinates to `[0, W-1]` / `[0, H-1]` and flooring, the
second index is capped at `dim - 1`, all four indices are strictly in
bounds, the result is the four-pixel blend with weights
`(1-fx)(1-fy), fx(1-fy), (1-fx)fy, fx fy`, and for pixel values in
`[0, 255]` the sampled value stays in `[0, 255]`. -/
theorem bilinear_sample_contract (img : Image) (x y : ℚ) (ch : Nat)
    (hw : 1 ≤ img.w) (hh : 1 ≤ img.h)
    (hpix : ∀ i < img.h, ∀ j < img.w, 0 ≤ img.pix i j ch ∧ img.pix i j ch ≤ 255) :
    (idx0 img.w x < img.w ∧ idx1 img.w x < img.w ∧
     idx0 img.h y < img.h ∧ idx1 img.h y < img.h) ∧
    (idx0 img.w x = (⌊np_clip x 0 ((img.w : ℚ) - 1)⌋).toNat ∧
     idx1 img.w x = min (idx0 img.w x + 1) (img.w - 1) ∧
     fracPart img.w x = np_clip x 0 ((img.w : ℚ) - 1) - (idx0 img.w x : ℚ) ∧
     idx0 img.h y = (⌊np_clip y 0 ((img.h : ℚ) - 1)⌋).toNat ∧
     idx1 img.h y = min (idx0 img.h y + 1) (img.h - 1) ∧
     fracPart img.h y = np_clip y 0 ((img.h : ℚ) - 1) - (idx0 img.h y : ℚ)) ∧
    bilinear_sample img x y ch =
      img.pix (idx0 img.h y) (idx0 img.w x) ch *
          ((1 - fracPart img.w x) * (1 - fracPart img.h y)) +
      img.pix (idx0 img.h y) (idx1 img.w x) ch *
          (fracPart img.w x * (1 - fracPart img.h y)) +
      img.pix (idx1 img.h y) (idx0 img.w x) ch *
          ((1 - fracPart img.w x) * fracPart img.h y) +
      img.pix (idx1 img.h y) (idx1 img.w x) ch *
          (fracPart img.w x * fracPart img.h y) ∧
    0 ≤ bilinear_sample img x y ch ∧ bilinear_sample img x y ch ≤ 255 := by
  have hcw : ((img.w - 1 : Nat) : ℚ) = (img.w : ℚ) - 1 := by
    push_cast [Nat.cast_sub hw]
    ring
  have hch : ((img.h - 1 : Nat) : ℚ) = (img.h : ℚ) - 1 := by
    push_cast [Nat.cast_sub hh]
    ring
  refine ⟨⟨idx0_lt img.w x hw, idx1_lt img.w x hw, idx0_lt img.h y hh, idx1_lt img.h y hh⟩,
    ⟨?_, rfl, ?_, ?_, rfl, ?_⟩, rfl, bilinear_sample_bounds img x y ch hw hh hpix⟩
  · rw [idx0, hcw]
  · rw [fracPart, hcw]
  · rw [idx0, hch]
  · rw [fracPart, hch]

/-- A concrete 2 x 2 single-channel gradient used as a sampling target. -/
def grad22 : Image :=
  ⟨2, 2, 1, fun i j _ => if i = 0 then (if j = 0 then 0 else 50) else (if j = 0 then 100 else 150)⟩

theorem bilinear_sample_contract_witness :
    (idx0 grad22.w (-1) < grad22.w ∧ idx1 grad22.w (-1) < grad22.w ∧
     idx0 grad22.h (11/2) < grad22.h ∧ idx1 grad22.h (11/2) < grad22.h) ∧
    (idx0 grad22.w (-1) = (⌊np_clip (-1) 0 ((grad22.w : ℚ) - 1)⌋).toNat ∧
     idx1 grad22.w (-1) = min (idx0 grad22.w (-1) + 1) (grad22.w - 1) ∧
     fracPart grad22.w (-1) = np_clip (-1) 0 ((grad22.w : ℚ) - 1) - (idx0 grad22.w (-1) : ℚ) ∧
     idx0 grad22.h (11/2) = (⌊np_clip (11/2) 0 ((grad22.h : ℚ) - 1)⌋).toNat ∧
     idx1 grad22.h (11/2) = min (idx0 grad22.h (11/2) + 1) (grad22.h - 1) ∧
     fracPart grad22.h (11/2) = np_clip (11/2) 0 ((grad22.h : ℚ) - 1) - (idx0 grad22.h (11/2) : ℚ)) ∧
    bilinear_sample grad22 (-1) (11/2) 0 =
      grad22.pix (idx0 grad22.h (11/2)) (idx0 grad22.w (-1)) 0 *
          ((1 - fracPart grad22.w (-1)) * (1 - fracPart grad22.h (11/2))) +
      grad22.pix (idx0 grad22.h (11/2)) (idx1 grad22.w (-1)) 0 *
          (fracPart grad22.w (-1) * (1 - fracPart grad22.h (11/2))) +
      grad22.pix (idx1 grad22.h (11/2)) (idx0 grad22.w (-1)) 0 *
          ((1 - fracPart grad22.w (-1)) * fracPart grad22.h (11/2)) +
      grad22.pix (idx1 grad22.h (11/2)) (idx1 grad22.w (-1)) 0 *
          (fracPart grad22.w (-1) * fracPart grad22.h (11/2)) ∧
    0 ≤ bilinear_sample grad22 (-1) (11/2) 0 ∧ bilinear_sample grad22 (-1) (11/2) 0 ≤ 255 :=
  bilinear_sample_contract grad22 (-1) (11/2) 0 (by decide) (by decide)
    (by decide)

lemma quantize_eq_floor (v : ℚ) :
    ((quantize v : Nat) : ℚ) = ((⌊np_clip v 0 255⌋ : ℤ) : ℚ) := by
  have hfl : (0:ℤ) ≤ ⌊np_clip v 0 255⌋ :=
    Int.floor_nonneg.mpr (np_clip_nonneg v 255 (by norm_num))
  rw [quantize]
  exact_mod_cast congrArg (fun z : ℤ => (z : ℚ)) (Int.toNat_of_nonneg hfl)

lemma quantize_bounds (v : ℚ) :
    0 ≤ ((quantize v : Nat) : ℚ) ∧ ((quantize v : Nat) : ℚ) ≤ 255 := by
  refine ⟨Nat.cast_nonneg _, ?_⟩
  rw [quantize_eq_floor]
  have h1 : ((⌊np_clip v 0 255⌋ : ℤ) : ℚ) ≤ np_clip v 0 255 := Int.floor_le _
  have h2 : np_clip v 0 255 ≤ 255 := np_clip_le v 255
  linarith

lemma remap_gradient_ok (gradient erosion : Image) (fadeIn fadeOut dur : ℚ)
    (tbl : List ℚ) (htbl : build_red_to_green_map erosion = Except.ok tbl) :
    remap_gradient gradient erosion fadeIn fadeOut dur =
      Except.ok (Image.mk gradient.h gradient.w gradient.c
        (fun row col ch =>
          ((quantize ((remapPre gradient tbl fadeIn fadeOut dur).pix row col ch) : Nat) : ℚ))) := by
  rw [remap_gradient, htbl]
  rfl

/-- **C7.** The final step of `remap_gradient` clamps every real-valued
sample to `[0, 255]` and truncates it to an integer (floor, since the
clamped value is non-negative): every stored output sample equals
`⌊np_clip v 0 255⌋` of the corresponding pre-quantization sample `v` and
lies in `[0, 255]`; the output keeps the gradient's width, height and
channel count. -/
theorem remap_quantization (gradient erosion : Image) (fadeIn fadeOut dur : ℚ)
    (hc : 2 ≤ erosion.c) :
    ∃ tbl out,
      build_red_to_green_map erosion = Except.ok tbl ∧
      remap_gradient gradient erosion fadeIn fadeOut dur = Except.ok out ∧
      out.h = gradient.h ∧ out.w = gradient.w ∧ out.c = gradient.c ∧
      ∀ row col ch,
        out.pix row col ch =
          ((⌊np_clip ((remapPre gradient tbl fadeIn fadeOut dur).pix row col ch) 0 255⌋ : ℤ) : ℚ) ∧
        0 ≤ out.pix row col ch ∧ out.pix row col ch ≤ 255 := by
  obtain ⟨tbl, htbl, -⟩ := build_table_ok erosion hc
  refine ⟨tbl, _, htbl, remap_gradient_ok gradient erosion fadeIn fadeOut dur tbl htbl,
    rfl, rfl, rfl, ?_⟩
  intro row col ch
  exact ⟨quantize_eq_floor _, quantize_bounds _⟩

theorem remap_quantization_witness :
    ∃ tbl out,
      build_red_to_green_map tinyErosion = Except.ok tbl ∧
      remap_gradient grad22 tinyErosion (1/2) 2 2 = Except.ok out ∧
      out.h = grad22.h ∧ out.w = grad22.w ∧ out.c = grad22.c ∧
      ∀ row col ch,
        out.pix row col ch =
          ((⌊np_clip ((remapPre grad22 tbl (1/2) 2 2).pix row col ch) 0 255⌋ : ℤ) : ℚ) ∧
        0 ≤ out.pix row col ch ∧ out.pix row col ch ≤ 255 :=
  remap_quantization grad22 tinyErosion (1/2) 2 2 (by decide)

/-- **C8 (amended).** With a gradient of at least one channel, an erosion
texture of at least two channels, non-negative fade durations and a
positive animation duration, `remap_gradient` always completes
successfully (all coordinate math is clamped defensively), even when
`animation_duration < fade_in + fade_out`. -/
theorem remap_total_on_valid_inputs (gradient erosion : Image) (fadeIn fadeOut dur : ℚ)
    (hgc : 1 ≤ gradient.c) (hec : 2 ≤ erosion.c)
    (hfi : 0 ≤ fadeIn) (hfo : 0 ≤ fadeOut) (hdur : 0 < dur) :
    ∃ out, remap_gradient gradient erosion fadeIn fadeOut dur = Except.ok out ∧
      out.h = gradient.h ∧ out.w = gradient.w ∧ out.c = gradient.c := by
  obtain ⟨tbl, htbl, -⟩ := build_table_ok erosion hec
  exact ⟨_, remap_gradient_ok gradient erosion fadeIn fadeOut dur tbl htbl, rfl, rfl, rfl⟩

theorem remap_total_on_valid_inputs_witness :
    ∃ out, remap_gradient grad22 tinyErosion 3 3 1 = Except.ok out ∧
      out.h = grad22.h ∧ out.w = grad22.w ∧ out.c = grad22.c :=
  remap_total_on_valid_inputs grad22 tinyErosion 3 3 1 (by decide) (by decide)
    (by norm_num) (by norm_num) (by norm_num)

/-- **C8 (counterexample to the original claim).** A well-formed
single-channel gradient with non-negative timing parameters, paired with
a one-channel erosion texture: `remap_gradient` fails, so a malformed
(zero-channel) gradient is not the only failure mode. -/
theorem remap_failure_counterexample :
    1 ≤ grad22.c ∧
    remap_gradient grad22 oneChannelErosion 0 0 1 = Except.error "InvalidInput" :=
  ⟨by decide, rfl⟩

lemma colKeyRelease_ge (tbl : List ℚ) (fadeIn fadeOut dur : ℚ) (w col : Nat) :
    colKeyPress fadeIn w col + 1/1000 ≤ colKeyRelease tbl fadeIn fadeOut dur w col := by
  rw [colKeyRelease]
  split
  · exact le_refl _
  · linarith [not_le.mp (by assumption)]

/-- **C5.** Per-column degenerate-window guard: whenever the raw
`key_release` does not exceed `key_press + 0.001` it is replaced by
`key_press + 0.001`, so the column's time window is always at least
`0.001` wide (never zero-width or inverted); and even for parameters
that trigger the guard (`key_release ≤ key_press`), `remap_gradient`
completes and every sample of the column — before and after
quantization — stays within the source gradient's byte range `[0, 255]`. -/
theorem remap_window_guard (gradient erosion : Image) (fadeIn fadeOut dur : ℚ)
    (col : Nat) (hc : 2 ≤ erosion.c) (hw : 1 ≤ gradient.w) (hh : 1 ≤ gradient.h)
    (hpix : ∀ ch < gradient.c, ∀ i < gradient.h, ∀ j < gradient.w,
      0 ≤ gradient.pix i j ch ∧ gradient.pix i j ch ≤ 255) :
    ∃ tbl, build_red_to_green_map erosion = Except.ok tbl ∧
      (colKeyRelease0 tbl fadeOut dur gradient.w col ≤ colKeyPress fadeIn gradient.w col →
        colKeyRelease tbl fadeIn fadeOut dur gradient.w col =
          colKeyPress fadeIn gradient.w col + 1/1000) ∧
      colKeyPress fadeIn gradient.w col + 1/1000 ≤
        colKeyRelease tbl fadeIn fadeOut dur gradient.w col ∧
      ∃ out, remap_gradient gradient erosion fadeIn fadeOut dur = Except.ok out ∧
        ∀ row, ∀ ch < gradient.c,
          (0 ≤ (remapPre gradient tbl fadeIn fadeOut dur).pix row col ch ∧
            (remapPre gradient tbl fadeIn fadeOut dur).pix row col ch ≤ 255) ∧
          0 ≤ out.pix row col ch ∧ out.pix row col ch ≤ 255 := by
  obtain ⟨tbl, htbl, -⟩ := build_table_ok erosion hc
  refine ⟨tbl, htbl, ?_, colKeyRelease_ge tbl fadeIn fadeOut dur gradient.w col,
    _, remap_gradient_ok gradient erosion fadeIn fadeOut dur tbl htbl, ?_⟩
  · intro hle
    rw [colKeyRelease, if_pos (by linarith)]
  · intro row ch hch
    refine ⟨?_, quantize_bounds _⟩
    exact bilinear_sample_bounds gradient _ _ ch hw hh (hpix ch hch)

/-- An erosion texture whose single pixel has red 255 and green 255: the
resulting table sends red 255 to green 255, so with `fade_in = 100`,
`fade_out = 0`, `duration = 1` column 0 gets `key_press = 100` and a raw
`key_release = 1 ≤ key_press`, triggering the guard. -/
def lateErosion : Image := ⟨1, 1, 2, fun _ _ _ => 255⟩

theorem remap_window_guard_witness :
    ∃ tbl, build_red_to_green_map lateErosion = Except.ok tbl ∧
      (colKeyRelease0 tbl 0 1 grad22.w 0 ≤ colKeyPress 100 grad22.w 0 →
        colKeyRelease tbl 100 0 1 grad22.w 0 = colKeyPress 100 grad22.w 0 + 1/1000) ∧
      colKeyPress 100 grad22.w 0 + 1/1000 ≤ colKeyRelease tbl 100 0 1 grad22.w 0 ∧
      ∃ out, remap_gradient grad22 lateErosion 100 0 1 = Except.ok out ∧
        ∀ row, ∀ ch < grad22.c,
          (0 ≤ (remapPre grad22 tbl 100 0 1).pix row 0 ch ∧
            (remapPre grad22 tbl 100 0 1).pix row 0 ch ≤ 255) ∧
          0 ≤ out.pix row 0 ch ∧ out.pix row 0 ch ≤ 255 :=
  remap_window_guard grad22 lateErosion 100 0 1 0 (by decide) (by decide) (by decide)
    (by decide)

lemma cast_pred (n : Nat) (h : 1 ≤ n) : ((n - 1 : Nat) : ℚ) = (n : ℚ) - 1 := by
  push_cast [Nat.cast_sub h]
  ring

lemma normTimes_getD (h row : Nat) (h1 : 1 < h) (hrow : row < h) :
    (normTimes h).getD row 0 = (row : ℚ) / ((h : ℚ) - 1) := by
  rw [normTimes, np_linspace_getD 0 1 h row h1 hrow, cast_pred h (by omega)]
  ring

/-- **C2.** Per-column and per-row coordinate math of `remap_gradient`:
`attack = col / (W-1)` for `W > 1` and `0.5` for `W = 1`;
`red_value = round(255 * (1 - attack))` clamped to `[0, 255]`;
`normalized_time` is linearly spaced over `[0, 1]` across the `H` rows
(row `0 ↦ 0`, row `H-1 ↦ 1`, and `0` when `H = 1`); and each destination
pixel is sampled at
`src_x = clamp(global_time / animation_duration, 0, 1) * (W - 1)`,
`src_y = normalized_time * (H - 1)`, with
`global_time = key_press + normalized_time * (key_release - key_press)`. -/
theorem remap_column_parameters (gradient : Image) (tbl : List ℚ)
    (fadeIn fadeOut dur : ℚ) (col row ch : Nat)
    (hw : 1 ≤ gradient.w) (hh : 1 ≤ gradient.h)
    (hcol : col < gradient.w) (hrow : row < gradient.h) :
    (1 < gradient.w → colAttack gradient.w col = (col : ℚ) / ((gradient.w : ℚ) - 1)) ∧
    (gradient.w = 1 → colAttack gradient.w col = 1/2) ∧
    ((colRed gradient.w col : ℤ) =
        min (max (roundHalfEven (255 * (1 - colAttack gradient.w col))) 0) 255 ∧
      colRed gradient.w col ≤ 255) ∧
    ((normTimes gradient.h).getD 0 0 = 0 ∧
     (1 < gradient.h → (normTimes gradient.h).getD (gradient.h - 1) 0 = 1) ∧
     (gradient.h = 1 → (normTimes gradient.h).getD row 0 = 0) ∧
     (1 < gradient.h →
       (normTimes gradient.h).getD row 0 = (row : ℚ) / ((gradient.h : ℚ) - 1))) ∧
    (remapPre gradient tbl fadeIn fadeOut dur).pix row col ch =
      bilinear_sample gradient
        (np_clip ((colKeyPress fadeIn gradient.w col +
            ((normTimes gradient.h).getD row 0) *
              (colKeyRelease tbl fadeIn fadeOut dur gradient.w col -
                colKeyPress fadeIn gradient.w col)) / dur) 0 1 * ((gradient.w : ℚ) - 1))
        (((normTimes gradient.h).getD row 0) * ((gradient.h : ℚ) - 1)) ch := by
  refine ⟨?_, ?_, ⟨?_, ?_⟩, ⟨?_, ?_, ?_, ?_⟩, ?_⟩
  · intro h1
    rw [colAttack, if_pos h1, cast_pred gradient.w hw]
  · intro h1
    rw [colAttack, if_neg (by omega)]
  · rw [colRed]
    exact Int.toNat_of_nonneg (le_min (le_max_right _ _) (by norm_num))
  · rw [colRed]
    exact Int.toNat_le.mpr (min_le_right _ _)
  · rcases Nat.lt_or_ge 1 gradient.h with h1 | h1
    · rw [normTimes_getD gradient.h 0 h1 (by omega)]
      norm_num
    · have : gradient.h = 1 := by omega
      rw [normTimes, this, np_linspace_one]
      rfl
  · intro h1
    rw [normTimes_getD gradient.h (gradient.h - 1) h1 (by omega), cast_pred gradient.h hh]
    have : ((gradient.h : ℚ) - 1) ≠ 0 := by
      have : (1:ℚ) < (gradient.h : ℚ) := by exact_mod_cast h1
      linarith
    field_simp
  · intro h1
    rw [normTimes, h1, np_linspace_one]
    have : row = 0 := by omega
    rw [this]
    rfl
  · intro h1
    exact normTimes_getD gradient.h row h1 hrow
  · show bilinear_sample gradient
      (srcX tbl fadeIn fadeOut dur gradient.w gradient.h col row) (srcY gradient.h row) ch = _
    rw [srcX, srcY, cast_pred gradient.w hw, cast_pred gradient.h hh]

theorem remap_column_parameters_witness :
    (1 < grad22.w → colAttack grad22.w 1 = (1 : ℚ) / ((grad22.w : ℚ) - 1)) ∧
    (grad22.w = 1 → colAttack grad22.w 1 = 1/2) ∧
    ((colRed grad22.w 1 : ℤ) =
        min (max (roundHalfEven (255 * (1 - colAttack grad22.w 1))) 0) 255 ∧
      colRed grad22.w 1 ≤ 255) ∧
    ((normTimes grad22.h).getD 0 0 = 0 ∧
     (1 < grad22.h → (normTimes grad22.h).getD (grad22.h - 1) 0 = 1) ∧
     (grad22.h = 1 → (normTimes grad22.h).getD 1 0 = 0) ∧
     (1 < grad22.h → (normTimes grad22.h).getD 1 0 = (1 : ℚ) / ((grad22.h : ℚ) - 1))) ∧
    (remapPre grad22 [] (1/2) 2 2).pix 1 1 0 =
      bilinear_sample grad22
        (np_clip ((colKeyPress (1/2) grad22.w 1 +
            ((normTimes grad22.h).getD 1 0) *
              (colKeyRelease [] (1/2) 2 2 grad22.w 1 - colKeyPress (1/2) grad22.w 1)) / 2) 0 1 *
          ((grad22.w : ℚ) - 1))
        (((normTimes grad22.h).getD 1 0) * ((grad22.h : ℚ) - 1)) 0 :=
  remap_column_parameters grad22 [] (1/2) 2 2 1 1 0 (by decide) (by decide) (by decide) (by decide)

lemma np_mean_bounds (l : List ℚ) (hne : l ≠ [])
    (h : ∀ v ∈ l, 0 ≤ v ∧ v ≤ 255) : 0 ≤ np_mean l ∧ np_mean l ≤ 255 := by
  have hlen : 0 < (l.length : ℚ) := by
    have : 0 < l.length := List.length_pos.mpr hne
    exact_mod_cast this
  have hsum0 : 0 ≤ l.sum := List.sum_nonneg (fun v hv => (h v hv).1)
  have hsum1 : l.sum ≤ (l.length : ℚ) * 255 := by
    have := List.sum_le_card_nsmul l 255 (fun v hv => (h v hv).2)
    simpa [nsmul_eq_mul] using this
  constructor
  · exact div_nonneg hsum0 (le_of_lt hlen)
  · rw [np_mean, div_le_iff hlen]
    linarith

lemma lerpSeg_bounds (x0 y0 x1 y1 x : ℚ) (hx0 : x0 < x) (hx1 : x ≤ x1)
    (hy0 : 0 ≤ y0 ∧ y0 ≤ 255) (hy1 : 0 ≤ y1 ∧ y1 ≤ 255) :
    0 ≤ lerpSeg x0 y0 x1 y1 x ∧ lerpSeg x0 y0 x1 y1 x ≤ 255 := by
  have hlt : x0 < x1 := lt_of_lt_of_le hx0 hx1
  set t := (x - x0) / (x1 - x0) with ht
  have ht0 : 0 ≤ t := div_nonneg (by linarith) (by linarith)
  have ht1 : t ≤ 1 := by
    rw [ht, div_le_one (by linarith)]
    linarith
  have h1 : 0 ≤ y0 * (1 - t) := mul_nonneg hy0.1 (by linarith)
  have h2 : 0 ≤ y1 * t := mul_nonneg hy1.1 ht0
  have h3 : 0 ≤ (255 - y0) * (1 - t) := mul_nonneg (by linarith) (by linarith)
  have h4 : 0 ≤ (255 - y1) * t := mul_nonneg (by linarith) ht0
  rw [lerpSeg]
  constructor
  · linarith
  · linarith

lemma interpGo_bound (x : ℚ) :
    ∀ (l : List (ℚ × ℚ)) (p : ℚ × ℚ), p.1 < x →
      (0 ≤ p.2 ∧ p.2 ≤ 255) → (∀ q ∈ l, 0 ≤ q.2 ∧ q.2 ≤ 255) →
      0 ≤ interpGo x p l ∧ interpGo x p l ≤ 255
  | [], p, _, hp, _ => by
    rw [interpGo]
    exact hp
  | q :: rest, p, hpx, hp, hl => by
    rw [interpGo]
    split
    · exact lerpSeg_bounds p.1 p.2 q.1 q.2 x hpx (by assumption) hp
        (hl q (List.mem_cons_self q rest))
    · exact interpGo_bound x rest q (not_le.mp (by assumption))
        (hl q (List.mem_cons_self q rest))
        (fun r hr => hl r (List.mem_cons_of_mem q hr))

lemma np_interp_bound (x : ℚ) (l : List (ℚ × ℚ)) (hne : l ≠ [])
    (h : ∀ q ∈ l, 0 ≤ q.2 ∧ q.2 ≤ 255) :
    0 ≤ np_interp x l ∧ np_interp x l ≤ 255 := by
  match l with
  | p :: rest =>
    rw [np_interp]
    split
    · exact h p (List.mem_cons_self p rest)
    · exact interpGo_bound x rest p (not_le.mp (by assumption))
        (h p (List.mem_cons_self p rest))
        (fun r hr => h r (List.mem_cons_of_mem p hr))

lemma validPts_val_mem : ∀ (l : List (Option ℚ)) (n : Nat) (q : ℚ × ℚ),
    q ∈ validPts n l → some q.2 ∈ l
  | [], _, q, hq => absurd hq (by rw [validPts]; exact List.not_mem_nil q)
  | none :: t, n, q, hq =>
    List.mem_cons_of_mem _ (validPts_val_mem t (n + 1) q (by rwa [validPts] at hq))
  | some v :: t, n, q, hq => by
    rw [validPts] at hq
    rcases List.mem_cons.mp hq with h | h
    · subst h
      exact List.mem_cons_self _ _
    · exact List.mem_cons_of_mem _ (validPts_val_mem t (n + 1) q h)

lemma validPts_ne_nil : ∀ (l : List (Option ℚ)) (n : Nat),
    l.any Option.isSome = true → validPts n l ≠ []
  | [], _, h => by simp at h
  | none :: t, n, h => by
    rw [validPts]
    exact validPts_ne_nil t (n + 1) (by simpa using h)
  | some v :: t, n, _ => by
    rw [validPts]
    exact List.cons_ne_nil _ _

lemma mem_samples_elim (img : Image) (s : ℚ × ℚ) (hs : s ∈ img.samples) :
    ∃ i, ∃ j, i < img.h ∧ j < img.w ∧ s = (img.pix i j 0, img.pix i j 1) := by
  simp only [Image.samples, List.mem_flatMap, List.mem_map, List.mem_range] at hs
  rcases hs with ⟨i, hi, j, hj, rfl⟩
  exact ⟨i, j, hi, hj, rfl⟩

lemma greensFor_bounds (img : Image)
    (hg : ∀ i < img.h, ∀ j < img.w, 0 ≤ img.pix i j 1 ∧ img.pix i j 1 ≤ 255)
    (r : Nat) : ∀ v ∈ greensFor img r, 0 ≤ v ∧ v ≤ 255 := by
  intro v hv
  simp only [greensFor, List.mem_map] at hv
  rcases hv with ⟨s, hsf, rfl⟩
  rcases mem_samples_elim img s (List.mem_filter.mp hsf).1 with ⟨i, j, hi, hj, rfl⟩
  exact hg i hi j hj

lemma rawEntry_bounds (img : Image)
    (hg : ∀ i < img.h, ∀ j < img.w, 0 ≤ img.pix i j 1 ∧ img.pix i j 1 ≤ 255)
    (r : Nat) (v : ℚ) (h : rawEntry img r = some v) : 0 ≤ v ∧ v ≤ 255 := by
  rw [rawEntry] at h
  split at h
  · exact absurd h (by simp)
  · cases h
    exact np_mean_bounds _ (by assumption) (greensFor_bounds img hg r)

lemma rawTable_mem_bounds (erosion : Image)
    (hg : ∀ i < erosion.h, ∀ j < erosion.w,
      0 ≤ erosion.pix i j 1 ∧ erosion.pix i j 1 ≤ 255)
    (v : ℚ) (h : some v ∈ rawTable erosion) : 0 ≤ v ∧ v ≤ 255 := by
  rcases List.mem_map.mp h with ⟨r, _, hr⟩
  exact rawEntry_bounds erosion hg r v hr

/-- **C10.** When every red and green value of the erosion texture lies in
`[0, 255]`, every entry of the table built by `build_red_to_green_map`
lies in `[0, 255]`, in all three construction modes (means only,
interpolated gap fill with flat extrapolation, identity-ramp fallback). -/
theorem build_table_byte_range (erosion : Image) (hc : 2 ≤ erosion.c)
    (hr : ∀ i < erosion.h, ∀ j < erosion.w,
      0 ≤ erosion.pix i j 0 ∧ erosion.pix i j 0 ≤ 255)
    (hg : ∀ i < erosion.h, ∀ j < erosion.w,
      0 ≤ erosion.pix i j 1 ∧ erosion.pix i j 1 ≤ 255) :
    ∃ t, build_red_to_green_map erosion = Except.ok t ∧
      ∀ i < 256, 0 ≤ t.getD i 0 ∧ t.getD i 0 ≤ 255 := by
  have h2 : ¬ erosion.c < 2 := by omega
  simp only [build_red_to_green_map, if_neg h2]
  by_cases h1 :
      ((rawTable erosion).any Option.isSome && !((rawTable erosion).all Option.isSome)) = true
  · rw [if_pos h1]
    refine ⟨_, rfl, ?_⟩
    intro i hi
    rw [rangeMap_getD _ 256 i hi 0]
    have hany : (rawTable erosion).any Option.isSome = true := by
      simp only [Bool.and_eq_true] at h1
      exact h1.1
    exact np_interp_bound _ _ (validPts_ne_nil _ 0 hany)
      (fun q hq => rawTable_mem_bounds erosion hg q.2 (validPts_val_mem _ 0 q hq))
  · rw [if_neg h1]
    by_cases hb : (!(rawTable erosion).any Option.isSome) = true
    · rw [if_pos hb]
      refine ⟨_, rfl, ?_⟩
      intro i hi
      rw [np_linspace_identity i hi]
      constructor
      · exact Nat.cast_nonneg i
      · exact_mod_cast Nat.le_of_lt_succ hi
    · rw [if_neg hb]
      refine ⟨_, rfl, ?_⟩
      intro i hi
      have hany : (rawTable erosion).any Option.isSome = true := by
        rcases Bool.eq_false_or_eq_true ((rawTable erosion).any Option.isSome) with h | h
        · exact h
        · exact absurd (by simp [h]) hb
      have hall : (rawTable erosion).all Option.isSome = true := by
        rcases Bool.eq_false_or_eq_true ((rawTable erosion).all Option.isSome) with h | h
        · exact h
        · exact absurd (by simp [hany, h]) h1
      have hmem : rawEntry erosion i ∈ rawTable erosion :=
        List.mem_map.mpr ⟨i, List.mem_range.mpr hi, rfl⟩
      have hsome : (rawEntry erosion i).isSome = true := List.all_eq_true.mp hall _ hmem
      rcases Option.isSome_iff_exists.mp hsome with ⟨v, hv⟩
      rw [rawTable, List.map_map, rangeMap_getD _ 256 i hi 0]
      simp only [Function.comp, hv, Option.getD_some]
      exact rawEntry_bounds erosion hg i v hv

theorem build_table_byte_range_witness :
    ∃ t, build_red_to_green_map lateErosion = Except.ok t ∧
      ∀ i < 256, 0 ≤ t.getD i 0 ∧ t.getD i 0 ≤ 255 :=
  build_table_byte_range lateErosion (by decide) (by decide) (by decide)

lemma rangeMap_decomp {α : Type} (f : Nat → α) (k m : Nat) :
    (List.range (k + 1 + m)).map f =
      ((List.range k).map f) ++
        f k :: ((List.range m).map (fun j => f (k + 1 + j))) := by
  have h1 : k + 1 + m = k + (1 + m) := by omega
  rw [h1, List.range_add, List.map_append, List.map_map, List.range_add]
  simp only [List.map_append, List.map_map, List.range_succ, List.range_zero,
    List.nil_append, List.map_cons, List.map_nil, Function.comp]
  rw [List.singleton_append]
  refine congrArg (fun l => _ ++ f (k + 0) :: l) ?_
  refine List.map_congr_left (fun a _ => ?_)
  simp only [Function.comp]
  congr 1
  omega

lemma validPts_append : ∀ (l1 l2 : List (Option ℚ)) (n : Nat),
    validPts n (l1 ++ l2) = validPts n l1 ++ validPts (n + l1.length) l2
  | [], l2, n => by simp [validPts]
  | none :: t, l2, n => by
    rw [List.cons_append, validPts, validPts, validPts_append t l2 (n + 1)]
    congr 2
    simp
    omega
  | some v :: t, l2, n => by
    rw [List.cons_append, validPts, validPts, validPts_append t l2 (n + 1)]
    simp only [List.cons_append, List.length_cons]
    congr 3
    omega

lemma validPts_all_none : ∀ (l : List (Option ℚ)) (n : Nat),
    (∀ o ∈ l, o = none) → validPts n l = []
  | [], _, _ => by rw [validPts]
  | none :: t, n, h =>  by
    rw [validPts]
    exact validPts_all_none t (n + 1) (fun o ho => h o (List.mem_cons_of_mem _ ho))
  | some v :: t, n, h => absurd (h (some v) (List.mem_cons_self _ _)) (by simp)

lemma validPts_mem_idx : ∀ (l : List (Option ℚ)) (n : Nat) (q : ℚ × ℚ),
    q ∈ validPts n l → ∃ k : Nat, q.1 = (k : ℚ) ∧ n ≤ k ∧ k < n + l.length
  | [], _, q, hq => absurd (by rwa [validPts] at hq) (List.not_mem_nil q)
  | none :: t, n, q, hq => by
    rw [validPts] at hq
    rcases validPts_mem_idx t (n + 1) q hq with ⟨k, h1, h2, h3⟩
    refine ⟨k, h1, by omega, ?_⟩
    simp only [List.length_cons]
    omega
  | some v :: t, n, q, hq => by
    rw [validPts] at hq
    rcases List.mem_cons.mp hq with h | h
    · subst h
      exact ⟨n, rfl, le_refl n, by simp only [List.length_cons]; omega⟩
    · rcases validPts_mem_idx t (n + 1) q h with ⟨k, h1, h2, h3⟩
      refine ⟨k, h1, by omega, ?_⟩
      simp only [List.length_cons]
      omega

lemma interpGo_bracket (x : ℚ) (a b : ℚ × ℚ) (l2 : List (ℚ × ℚ))
    (ha : a.1 < x) (hb : x ≤ b.1) :
    ∀ (l1 : List (ℚ × ℚ)) (p : ℚ × ℚ), (∀ q ∈ l1, q.1 < x) →
      interpGo x p (l1 ++ a :: b :: l2) = lerpSeg a.1 a.2 b.1 b.2 x
  | [], p, _ => by
    rw [List.nil_append, interpGo, if_neg (not_le.mpr ha), interpGo, if_pos hb]
  | q :: l1, p, hl => by
    rw [List.cons_append, interpGo, if_neg (not_le.mpr (hl q (List.mem_cons_self q l1)))]
    exact interpGo_bracket x a b l2 ha hb l1 q
      (fun r hr => hl r (List.mem_cons_of_mem q hr))

lemma np_interp_bracket (x : ℚ) (l1 : List (ℚ × ℚ)) (a b : ℚ × ℚ)
    (l2 : List (ℚ × ℚ)) (hl1 : ∀ q ∈ l1, q.1 < x) (ha : a.1 < x) (hb : x ≤ b.1) :
    np_interp x (l1 ++ a :: b :: l2) = lerpSeg a.1 a.2 b.1 b.2 x := by
  cases l1 with
  | nil =>
    rw [List.nil_append, np_interp, if_neg (not_le.mpr ha), interpGo, if_pos hb]
  | cons p l1 =>
    rw [List.cons_append, np_interp,
      if_neg (not_le.mpr (hl1 p (List.mem_cons_self p l1)))]
    exact interpGo_bracket x a b l2 ha hb l1 p
      (fun r hr => hl1 r (List.mem_cons_of_mem p hr))

lemma interpGo_append_last (x : ℚ) (a : ℚ × ℚ) (ha : a.1 < x) :
    ∀ (l1 : List (ℚ × ℚ)) (p : ℚ × ℚ), (∀ q ∈ l1, q.1 < x) →
      interpGo x p (l1 ++ [a]) = a.2
  | [], p, _ => by
    rw [List.nil_append, interpGo, if_neg (not_le.mpr ha), interpGo]
  | q :: l1, p, hl => by
    rw [List.cons_append, interpGo, if_neg (not_le.mpr (hl q (List.mem_cons_self q l1)))]
    exact interpGo_append_last x a ha l1 q (fun r hr => hl r (List.mem_cons_of_mem q hr))

lemma np_interp_last (x : ℚ) (l1 : List (ℚ × ℚ)) (a : ℚ × ℚ)
    (hl1 : ∀ q ∈ l1, q.1 < x) (ha : a.1 < x) :
    np_interp x (l1 ++ [a]) = a.2 := by
  cases l1 with
  | nil => rw [List.nil_append, np_interp, if_neg (not_le.mpr ha), interpGo]
  | cons p l1 =>
    rw [List.cons_append, np_interp,
      if_neg (not_le.mpr (hl1 p (List.mem_cons_self p l1)))]
    exact interpGo_append_last x a ha l1 p
      (fun r hr => hl1 r (List.mem_cons_of_mem p hr))

lemma interpGo_knot (x : ℚ) (a : ℚ × ℚ) (l2 : List (ℚ × ℚ)) (hax : a.1 = x) :
    ∀ (l1 : List (ℚ × ℚ)) (p : ℚ × ℚ), p.1 < x → (∀ q ∈ l1, q.1 < x) →
      interpGo x p (l1 ++ a :: l2) = a.2
  | [], p, hp, _ => by
    rw [List.nil_append, interpGo, if_pos (le_of_eq hax.symm), lerpSeg, hax]
    have hne : x - p.1 ≠ 0 := by linarith
    rw [div_self hne]
    ring
  | q :: l1, p, hp, hl => by
    rw [List.cons_append, interpGo, if_neg (not_le.mpr (hl q (List.mem_cons_self q l1)))]
    exact interpGo_knot x a l2 hax l1 q (hl q (List.mem_cons_self q l1))
      (fun r hr => hl r (List.mem_cons_of_mem q hr))

lemma np_interp_knot (x : ℚ) (l1 : List (ℚ × ℚ)) (a : ℚ × ℚ)
    (l2 : List (ℚ × ℚ)) (hl1 : ∀ q ∈ l1, q.1 < x) (hax : a.1 = x) :
    np_interp x (l1 ++ a :: l2) = a.2 := by
  cases l1 with
  | nil => rw [List.nil_append, np_interp, if_pos (le_of_eq hax.symm)]
  | cons p l1 =>
    rw [List.cons_append, np_interp,
      if_neg (not_le.mpr (hl1 p (List.mem_cons_self p l1)))]
    exact interpGo_knot x a l2 hax l1 p (hl1 p (List.mem_cons_self p l1))
      (fun r hr => hl1 r (List.mem_cons_of_mem p hr))

lemma rawEntry_none (img : Image) (r : Nat) (h : greensFor img r = []) :
    rawEntry img r = none := by
  simp [rawEntry, h]

lemma rawTable_decomp (erosion : Image) (r : Nat) (hr : r < 256) :
    rawTable erosion =
      ((List.range r).map (rawEntry erosion)) ++
        rawEntry erosion r ::
          ((List.range (255 - r)).map (fun j => rawEntry erosion (r + 1 + j))) := by
  rw [rawTable, show (256 : Nat) = r + 1 + (255 - r) from by omega]
  exact rangeMap_decomp (rawEntry erosion) r (255 - r)

lemma validPts_rawTable_decomp (erosion : Image) (r : Nat) (hr : r < 256) (v : ℚ)
    (hv : rawEntry erosion r = some v) :
    validPts 0 (rawTable erosion) =
      validPts 0 ((List.range r).map (rawEntry erosion)) ++
        ((r : ℚ), v) ::
          validPts (r + 1)
            ((List.range (255 - r)).map (fun j => rawEntry erosion (r + 1 + j))) := by
  rw [rawTable_decomp erosion r hr, validPts_append, hv]
  simp only [List.length_map, List.length_range, Nat.zero_add]
  rw [validPts]

lemma validPts_low_nil (erosion : Image) (r : Nat)
    (hbelow : ∀ s < r, greensFor erosion s = []) :
    validPts 0 ((List.range r).map (rawEntry erosion)) = [] := by
  apply validPts_all_none
  intro o ho
  rcases List.mem_map.mp ho with ⟨s, hs, rfl⟩
  exact rawEntry_none erosion s (hbelow s (List.mem_range.mp hs))

lemma validPts_high_nil (erosion : Image) (r : Nat)
    (habove : ∀ s, r < s → s < 256 → greensFor erosion s = []) :
    validPts (r + 1)
      ((List.range (255 - r)).map (fun j => rawEntry erosion (r + 1 + j))) = [] := by
  apply validPts_all_none
  intro o ho
  rcases List.mem_map.mp ho with ⟨j, hj, rfl⟩
  have hj255 := List.mem_range.mp hj
  exact rawEntry_none erosion _ (habove (r + 1 + j) (by omega) (by omega))

lemma validPts_low_lt (erosion : Image) (r : Nat) (q : ℚ × ℚ)
    (hq : q ∈ validPts 0 ((List.range r).map (rawEntry erosion))) :
    ∃ k : Nat, q.1 = (k : ℚ) ∧ k < r := by
  rcases validPts_mem_idx _ 0 q hq with ⟨k, h1, _, h3⟩
  refine ⟨k, h1, ?_⟩
  simpa using h3

lemma build_table_interp_branch (erosion : Image) (hc : 2 ≤ erosion.c)
    (rs ru : Nat) (hrs : rs < 256) (hru : ru < 256)
    (hres : greensFor erosion rs ≠ []) (hunres : greensFor erosion ru = []) :
    build_red_to_green_map erosion =
      Except.ok ((List.range 256).map
        (fun (i : Nat) => np_interp (i : ℚ) (validPts 0 (rawTable erosion)))) := by
  have hany : (rawTable erosion).any Option.isSome = true := by
    rw [rawTable, List.any_eq_true]
    refine ⟨rawEntry erosion rs, List.mem_map.mpr ⟨rs, List.mem_range.mpr hrs, rfl⟩, ?_⟩
    rw [rawEntry_of_ne_nil erosion rs hres]
    rfl
  have hnall : (rawTable erosion).all Option.isSome = false := by
    rcases Bool.eq_false_or_eq_true ((rawTable erosion).all Option.isSome) with h | h
    · exfalso
      have hmem : rawEntry erosion ru ∈ rawTable erosion :=
        List.mem_map.mpr ⟨ru, List.mem_range.mpr hru, rfl⟩
      have hs := List.all_eq_true.mp h _ hmem
      rw [rawEntry_none erosion ru hunres] at hs
      simp at hs
    · exact h
  have h2 : ¬ erosion.c < 2 := by omega
  simp only [build_red_to_green_map, if_neg h2]
  rw [if_pos (by rw [hany, hnall]; rfl)]

lemma build_table_interp_getD (erosion : Image) (hc : 2 ≤ erosion.c)
    (rs ru : Nat) (hrs : rs < 256) (hru : ru < 256)
    (hres : greensFor erosion rs ≠ []) (hunres : greensFor erosion ru = [])
    (t : List ℚ) (ht : build_red_to_green_map erosion = Except.ok t)
    (i : Nat) (hi : i < 256) :
    t.getD i 0 = np_interp (i : ℚ) (validPts 0 (rawTable erosion)) := by
  have hbr := build_table_interp_branch erosion hc rs ru hrs hru hres hunres
  rw [ht] at hbr
  rw [Except.ok.inj hbr, rangeMap_getD _ 256 i hi 0]

lemma build_gap_flat_below (erosion : Image) (hc : 2 ≤ erosion.c) (i lo : Nat)
    (hilo : i < lo) (hlo : lo < 256) (hres : greensFor erosion lo ≠ [])
    (hbelow : ∀ s < lo, greensFor erosion s = [])
    (t : List ℚ) (ht : build_red_to_green_map erosion = Except.ok t) :
    t.getD i 0 = np_mean (greensFor erosion lo) := by
  rw [build_table_interp_getD erosion hc lo i hlo (by omega) hres (hbelow i hilo) t ht i
      (by omega),
    validPts_rawTable_decomp erosion lo hlo _ (rawEntry_of_ne_nil erosion lo hres),
    validPts_low_nil erosion lo hbelow, List.nil_append, np_interp,
    if_pos (show (i : ℚ) ≤ ((lo : Nat) : ℚ) from by exact_mod_cast le_of_lt hilo)]

lemma build_gap_flat_above (erosion : Image) (hc : 2 ≤ erosion.c) (i hi : Nat)
    (hhii : hi < i) (hi256 : i < 256) (hres : greensFor erosion hi ≠ [])
    (habove : ∀ s, hi < s → s < 256 → greensFor erosion s = [])
    (t : List ℚ) (ht : build_red_to_green_map erosion = Except.ok t) :
    t.getD i 0 = np_mean (greensFor erosion hi) := by
  rw [build_table_interp_getD erosion hc hi i (by omega) hi256 hres
      (habove i hhii hi256) t ht i hi256,
    validPts_rawTable_decomp erosion hi (by omega) _ (rawEntry_of_ne_nil erosion hi hres),
    validPts_high_nil erosion hi habove]
  refine np_interp_last _ _ _ (fun q hq => ?_)
    (show ((hi : Nat) : ℚ) < (i : ℚ) from by exact_mod_cast hhii)
  rcases validPts_low_lt erosion hi q hq with ⟨k, hk, hklt⟩
  rw [hk]
  exact_mod_cast lt_trans hklt hhii

lemma build_table_knot (erosion : Image) (hc : 2 ≤ erosion.c) (r ru : Nat)
    (hr : r < 256) (hru : ru < 256) (hres : greensFor erosion r ≠ [])
    (hunres : greensFor erosion ru = [])
    (t : List ℚ) (ht : build_red_to_green_map erosion = Except.ok t) :
    t.getD r 0 = np_mean (greensFor erosion r) := by
  rw [build_table_interp_getD erosion hc r ru hr hru hres hunres t ht r hr,
    validPts_rawTable_decomp erosion r hr _ (rawEntry_of_ne_nil erosion r hres)]
  refine np_interp_knot _ _ _ _ (fun q hq => ?_) rfl
  rcases validPts_low_lt erosion r q hq with ⟨k, hk, hklt⟩
  rw [hk]
  exact_mod_cast hklt

lemma build_gap_bracket (erosion : Image) (hc : 2 ≤ erosion.c) (i lo hi : Nat)
    (hloi : lo < i) (hihi : i < hi) (hhi256 : hi < 256)
    (hreslo : greensFor erosion lo ≠ []) (hreshi : greensFor erosion hi ≠ [])
    (hbetween : ∀ s, lo < s → s < hi → greensFor erosion s = [])
    (t : List ℚ) (ht : build_red_to_green_map erosion = Except.ok t) :
    t.getD i 0 = np_mean (greensFor erosion lo) +
      (np_mean (greensFor erosion hi) - np_mean (greensFor erosion lo)) *
        (((i : ℚ) - (lo : ℚ)) / ((hi : ℚ) - (lo : ℚ))) := by
  have hlo256 : lo < 256 := by omega
  have hi256 : i < 256 := by omega
  have htail : (List.range (255 - lo)).map (fun j => rawEntry erosion (lo + 1 + j)) =
      ((List.range (hi - lo - 1)).map (fun j => rawEntry erosion (lo + 1 + j))) ++
        rawEntry erosion hi ::
          ((List.range (255 - hi)).map (fun j => rawEntry erosion (hi + 1 + j))) := by
    rw [show 255 - lo = (hi - lo - 1) + 1 + (255 - hi) from by omega,
      rangeMap_decomp (fun j => rawEntry erosion (lo + 1 + j)) (hi - lo - 1) (255 - hi)]
    congr 1
    congr 1
    · congr 1
      omega
    · refine List.map_congr_left (fun a _ => ?_)
      congr 1
      omega
  have hB : validPts (lo + 1)
      ((List.range (hi - lo - 1)).map (fun j => rawEntry erosion (lo + 1 + j))) = [] := by
    apply validPts_all_none
    intro o ho
    rcases List.mem_map.mp ho with ⟨j, hj, rfl⟩
    have := List.mem_range.mp hj
    exact rawEntry_none erosion _ (hbetween (lo + 1 + j) (by omega) (by omega))
  have hdec : validPts 0 (rawTable erosion) =
      validPts 0 ((List.range lo).map (rawEntry erosion)) ++
        ((lo : ℚ), np_mean (greensFor erosion lo)) ::
          ((hi : ℚ), np_mean (greensFor erosion hi)) ::
            validPts (hi + 1)
              ((List.range (255 - hi)).map (fun j => rawEntry erosion (hi + 1 + j))) := by
    rw [validPts_rawTable_decomp erosion lo hlo256 _ (rawEntry_of_ne_nil erosion lo hreslo),
      htail, validPts_append, hB, List.nil_append, rawEntry_of_ne_nil erosion hi hreshi]
    simp only [List.length_map, List.length_range]
    rw [show lo + 1 + (hi - lo - 1) = hi from by omega, validPts]
  have hl1 : ∀ q ∈ validPts 0 ((List.range lo).map (rawEntry erosion)), q.1 < (i : ℚ) := by
    intro q hq
    rcases validPts_low_lt erosion lo q hq with ⟨k, hk, hklt⟩
    rw [hk]
    exact_mod_cast lt_trans hklt hloi
  have hfin := np_interp_bracket (i : ℚ)
    (validPts 0 ((List.range lo).map (rawEntry erosion)))
    ((lo : ℚ), np_mean (greensFor erosion lo))
    ((hi : ℚ), np_mean (greensFor erosion hi))
    (validPts (hi + 1) ((List.range (255 - hi)).map (fun j => rawEntry erosion (hi + 1 + j))))
    hl1 (show ((lo : Nat) : ℚ) < (i : ℚ) from by exact_mod_cast hloi)
    (show (i : ℚ) ≤ ((hi : Nat) : ℚ) from by exact_mod_cast le_of_lt hihi)
  rw [build_table_interp_getD erosion hc lo i hlo256 (by omega) hreslo
      (hbetween i hloi hihi) t ht i hi256, hdec, hfin, lerpSeg]

/-- Red value `r` has at least one sample in the erosion texture. -/
def resolvedRed (erosion : Image) (r : Nat) : Prop := greensFor erosion r ≠ []

/-- A 1 x 2 erosion image whose only samples are (red 0, green 0) and
(red 255, green 255). -/
def twoPointErosion : Image := ⟨1, 2, 2, fun _ j _ => if j = 0 then 0 else 255⟩

set_option maxRecDepth 20000 in
/-- **C3.** With some but not all red values sampled,
`build_red_to_green_map` fills every unresolved entry by piecewise-linear
interpolation over the index between the nearest lower and upper resolved
anchors; entries below the lowest (resp. above the highest) resolved
index take that boundary entry's value, extended flat.  In particular,
for the erosion texture whose only samples are (r 0, g 0) and
(r 255, g 255), every entry `i` of the table equals `i` exactly. -/
theorem build_table_gap_fill (erosion : Image) (hc : 2 ≤ erosion.c) :
    (∃ t, build_red_to_green_map erosion = Except.ok t ∧
      (∀ i lo : Nat, i < lo → lo < 256 → resolvedRed erosion lo →
        (∀ r < lo, ¬ resolvedRed erosion r) →
        t.getD i 0 = np_mean (greensFor erosion lo)) ∧
      (∀ i hi : Nat, hi < i → i < 256 → resolvedRed erosion hi →
        (∀ r, hi < r → r < 256 → ¬ resolvedRed erosion r) →
        t.getD i 0 = np_mean (greensFor erosion hi)) ∧
      (∀ i lo hi : Nat, lo < i → i < hi → hi < 256 →
        resolvedRed erosion lo → resolvedRed erosion hi →
        (∀ r, lo < r → r < hi → ¬ resolvedRed erosion r) →
        t.getD i 0 = np_mean (greensFor erosion lo) +
          (np_mean (greensFor erosion hi) - np_mean (greensFor erosion lo)) *
            (((i : ℚ) - (lo : ℚ)) / ((hi : ℚ) - (lo : ℚ))))) ∧
    (∀ t2, build_red_to_green_map twoPointErosion = Except.ok t2 →
      ∀ i < 256, t2.getD i 0 = (i : ℚ)) := by
  constructor
  · obtain ⟨t, ht, -⟩ := build_table_ok erosion hc
    refine ⟨t, ht, ?_, ?_, ?_⟩
    · intro i lo hilo hlo hres hbelow
      exact build_gap_flat_below erosion hc i lo hilo hlo hres
        (fun s hs => not_ne_iff.mp (hbelow s hs)) t ht
    · intro i hi hhii hi256 hres habove
      exact build_gap_flat_above erosion hc i hi hhii hi256 hres
        (fun s h1 h2 => not_ne_iff.mp (habove s h1 h2)) t ht
    · intro i lo hi hloi hihi hhi256 hreslo hreshi hbetween
      exact build_gap_bracket erosion hc i lo hi hloi hihi hhi256 hreslo hreshi
        (fun s h1 h2 => not_ne_iff.mp (hbetween s h1 h2)) t ht
  · intro t2 ht2 i hi
    have hc2 : 2 ≤ twoPointErosion.c := by decide
    have hres0 : greensFor twoPointErosion 0 ≠ [] := by decide
    have hres255 : greensFor twoPointErosion 255 ≠ [] := by decide
    have hmid : ∀ s < 255, 0 < s → greensFor twoPointErosion s = [] := by decide
    have hg0 : greensFor twoPointErosion 0 = [0] := by decide
    have hg255 : greensFor twoPointErosion 255 = [255] := by decide
    rcases Nat.eq_zero_or_pos i with h0 | hpos
    · subst h0
      rw [build_table_knot twoPointErosion hc2 0 100 (by norm_num) (by norm_num) hres0
          (hmid 100 (by norm_num) (by norm_num)) t2 ht2, hg0]
      norm_num [np_mean]
    · rcases Nat.lt_or_ge i 255 with hlt | hge
      · rw [build_gap_bracket twoPointErosion hc2 i 0 255 hpos hlt (by norm_num) hres0
            hres255 (fun s h1 h2 => hmid s h2 h1) t2 ht2, hg0, hg255]
        have : ((i : ℚ) - ((0 : Nat) : ℚ)) = (i : ℚ) := by norm_num
        rw [this]
        norm_num [np_mean]
        field_simp
      · have h255 : i = 255 := by omega
        subst h255
        rw [build_table_knot twoPointErosion hc2 255 100 (by norm_num) (by norm_num) hres255
            (hmid 100 (by norm_num) (by norm_num)) t2 ht2, hg255]
        norm_num [np_mean]

theorem build_table_gap_fill_witness :
    (∃ t, build_red_to_green_map twoPointErosion = Except.ok t ∧
      (∀ i lo : Nat, i < lo → lo < 256 → resolvedRed twoPointErosion lo →
        (∀ r < lo, ¬ resolvedRed twoPointErosion r) →
        t.getD i 0 = np_mean (greensFor twoPointErosion lo)) ∧
      (∀ i hi : Nat, hi < i → i < 256 → resolvedRed twoPointErosion hi →
        (∀ r, hi < r → r < 256 → ¬ resolvedRed twoPointErosion r) →
        t.getD i 0 = np_mean (greensFor twoPointErosion hi)) ∧
      (∀ i lo hi : Nat, lo < i → i < hi → hi < 256 →
        resolvedRed twoPointErosion lo → resolvedRed twoPointErosion hi →
        (∀ r, lo < r → r < hi → ¬ resolvedRed twoPointErosion r) →
        t.getD i 0 = np_mean (greensFor twoPointErosion lo) +
          (np_mean (greensFor twoPointErosion hi) - np_mean (greensFor twoPointErosion lo)) *
            (((i : ℚ) - (lo : ℚ)) / ((hi : ℚ) - (lo : ℚ))))) ∧
    (∀ t2, build_red_to_green_map twoPointErosion = Except.ok t2 →
      ∀ i < 256, t2.getD i 0 = (i : ℚ)) :=
  build_table_gap_fill twoPointErosion (by decide)
